import Mathlib

/-!
# Verification of the trading-bot signal / sizing / options-scoring core

Shallow embedding of the decision core of the repository
(`automation_tab.py`, `options_screener.py` / `dashboard_tab.py`):

* indicator library (`_sma`, `_rsi`),
* the rule-driven signal evaluator (`_signal_for`),
* the position sizer (`_position_targets`),
* the ticket builder (`_build_tickets`),
* the options-chain filter-and-score function (`filter_and_score_options`).

Python floats are modelled as exact rationals (`ℚ`); Python dicts keyed by
ticker are modelled as association lists `List (String × ℚ)` with
`lookup`-with-default-0, mirroring `d.get(k, 0.0)`.  The Python `round(x, n)` function
(round-half-to-even) is modelled exactly on `ℚ`.  Pandas `sort_values`
(descending, stable for the tie patterns exercised here) is modelled by the
stable `List.mergeSort`.
-/

namespace TradingBot

/-- Lookup in a ticker→value mapping with default `0`, mirroring
the Python `d.get(t, 0.0) or 0.0` idiom. -/
def getD0 (m : List (String × ℚ)) (t : String) : ℚ :=
  ((m.lookup t).getD 0)

/-- The Python `round` builtin to an integer: round half to even. -/
def pyRoundInt (q : ℚ) : ℤ :=
  let f := ⌊q⌋
  let r := q - (f : ℚ)
  if r < 1/2 then f
  else if 1/2 < r then f + 1
  else if f % 2 = 0 then f else f + 1

/-- The Python `round(x, n)` function on exact rationals. -/
def pyRound (q : ℚ) (n : ℕ) : ℚ :=
  (pyRoundInt (q * 10 ^ n) : ℚ) / 10 ^ n

/-- The Python `int(x)` conversion: truncation toward zero. -/
def pyInt (q : ℚ) : ℤ :=
  if q < 0 then -⌊-q⌋ else ⌊q⌋

/-! ## Position sizer (`automation_tab._position_targets`) -/

/-- The `risk` configuration dict, with the defaults the code supplies at
each `risk.get(...)` call site (`max_position_pct` 0.25, `max_buy_usd` 2500,
`min_cash_reserve_usd` 5000). -/
structure Risk where
  max_position_pct : ℚ := 0.25
  max_buy_usd : ℚ := 2500
  min_cash_reserve_usd : ℚ := 5000
deriving DecidableEq, Repr

/-- The clamping phase of `_position_targets`: raw target
`alloc_long * weight`, clamped by `max_buy` and by the remaining room under
the position cap, then forced to `0` when the price of the ticker is
non-positive or missing.  One entry per key of `weights`. -/
def clampedTargets (portfolio_value cash_on_hand long_term_pct : ℚ)
    (weights prices current_values : List (String × ℚ)) (risk : Risk) :
    List (String × ℚ) :=
  let total_deploy := max 0 cash_on_hand
  let alloc_long := total_deploy * (long_term_pct / 100)
  let max_pos_val := risk.max_position_pct * max 1 portfolio_value
  weights.map (fun p =>
    let raw := alloc_long * p.2
    let px := getD0 prices p.1
    let cur_val := getD0 current_values p.1
    let room := max 0 (max_pos_val - cur_val)
    let v := min (min raw risk.max_buy_usd) room
    (p.1, if px ≤ 0 then 0 else v))

/-- `_position_targets`: clamp, then if the sum of clamped targets exceeds
`spare = max(0, cash_on_hand - min_cash_reserve_usd)` (and is positive),
scale every target by `spare / sum`. -/
def positionTargets (portfolio_value cash_on_hand long_term_pct : ℚ)
    (weights prices current_values : List (String × ℚ)) (risk : Risk) :
    List (String × ℚ) :=
  let target := clampedTargets portfolio_value cash_on_hand long_term_pct
    weights prices current_values risk
  let total_buys := (target.map Prod.snd).sum
  let spare := max 0 (cash_on_hand - risk.min_cash_reserve_usd)
  if total_buys > spare ∧ total_buys > 0 then
    target.map (fun p => (p.1, p.2 * (spare / total_buys)))
  else
    target

/-! ## Indicators (`automation_tab._sma`, `automation_tab._rsi`) -/

/-- `_sma(series, window)`: `NaN` (modelled as `none`) when the series is
shorter than the window, otherwise the arithmetic mean of the last `window`
closes (`series.rolling(window).mean().iloc[-1]`).  Windows are the Python
ints produced by `int(cond["window"])`; per the RuleSet invariant they are
`≥ 1`. -/
def sma (series : List ℚ) (window : ℤ) : Option ℚ :=
  if (series.length : ℤ) < window then none
  else some (((series.drop (series.length - window.toNat)).sum) / (window : ℚ))

/-- `_rsi(series, window)`: `50.0` when the series is shorter than
`window + 1`; otherwise Wilder-style RSI from simple rolling means of the
last `window` up-moves and down-moves, with an exactly-zero down-mean
replaced by `1e-9` (`roll_down.replace(0, 1e-9)`). -/
def rsi (series : List ℚ) (window : ℤ) : ℚ :=
  if (series.length : ℤ) < window + 1 then 50
  else
    let diffs := (series.zip series.tail).map (fun p => p.2 - p.1)
    let lastW := diffs.drop (diffs.length - window.toNat)
    let roll_up := (lastW.map (fun d => max d 0)).sum / (window : ℚ)
    let roll_down0 := (lastW.map (fun d => max (-d) 0)).sum / (window : ℚ)
    let roll_down := if roll_down0 = 0 then 1 / 1000000000 else roll_down0
    let rs := roll_up / roll_down
    100 - 100 / (1 + rs)

/-! ## Signal evaluator (`automation_tab._signal_for`) -/

/-- One buy-condition from the strategy configuration.  `ctype` is the
`type` tag the evaluator dispatches on; `window` / `threshold` are the
numeric payloads (with the dict-level defaults `window=14`,
`threshold=35` already applied for `rsi_below`). -/
structure Cond where
  ctype : String
  window : ℤ := 14
  threshold : ℚ := 35
deriving DecidableEq, Repr

/-- The signal dict `{ticker, action, confidence, reason}`. -/
structure Signal where
  ticker : String
  action : String
  confidence : ℚ
  reason : String
deriving DecidableEq, Repr

/-- One iteration of the `for cond in rules.get("buy_if", [])` loop:
thread the `(score, reasons)` accumulator through one condition.
Unknown `type` tags fall through the `if`/`elif` chain unchanged. -/
def condStep (close : List ℚ) (acc : ℕ × List String) (c : Cond) :
    ℕ × List String :=
  if c.ctype = "price_above_sma" then
    match sma close c.window with
    | some s =>
        if s < (close.getLast?.getD 0) then
          (acc.1 + 1, acc.2 ++ ["price>" ++ toString c.window ++ "SMA"])
        else acc
    | none => acc
  else if c.ctype = "rsi_below" then
    if rsi close c.window < c.threshold then
      (acc.1 + 1,
        acc.2 ++ ["RSI" ++ toString c.window ++ "<" ++ toString c.threshold])
    else acc
  else acc

/-- `_signal_for(ticker, rules)`.  The fetched history dataframe is
modelled by `df : Option (List ℚ)`: `none` when the `close` column is
absent, `some closes` otherwise (`closes = []` iff the dataframe is
empty).  Returns the "no data" HOLD signal on an empty / close-less
dataframe; otherwise scores the buy-conditions and maps the score to
BUY/HOLD exactly as the code does. -/
def signalFor (ticker : String) (rules : List Cond) (df : Option (List ℚ)) :
    Signal :=
  match df with
  | none => ⟨ticker, "HOLD", 0, "no data"⟩
  | some [] => ⟨ticker, "HOLD", 0, "no data"⟩
  | some closes =>
    let sr := rules.foldl (condStep closes) (0, [])
    if sr.1 > 0 then
      ⟨ticker, "BUY", min 1 ((sr.1 : ℚ) / 2), String.intercalate ", " sr.2⟩
    else
      ⟨ticker, "HOLD", 0,
        if String.intercalate ", " sr.2 = "" then "neutral"
        else String.intercalate ", " sr.2⟩

/-- Whether one condition is satisfied on a close series (the test the
loop body performs before incrementing `score`). -/
def condSat (close : List ℚ) (c : Cond) : Bool :=
  if c.ctype = "price_above_sma" then
    match sma close c.window with
    | some s => decide (s < close.getLast?.getD 0)
    | none => false
  else if c.ctype = "rsi_below" then
    decide (rsi close c.window < c.threshold)
  else false

/-- The rationale fragment a condition contributes when satisfied. -/
def condFrag (close : List ℚ) (c : Cond) : Option String :=
  if condSat close c then
    some (if c.ctype = "price_above_sma" then
            "price>" ++ toString c.window ++ "SMA"
          else "RSI" ++ toString c.window ++ "<" ++ toString c.threshold)
  else none

/-! ## Ticket builder (`automation_tab._build_tickets`) -/

/-- One advisory order ticket. -/
structure Ticket where
  ticker : String
  action : String
  qty : ℚ
  est_price : ℚ
  dollars : ℚ
  reason : String
deriving DecidableEq, Repr

/-- The Python test `t.endswith("-USD")`, the crypto-symbol check of the
builder,
expressed on the underlying character lists. -/
def endsWithUSD (t : String) : Bool :=
  List.isSuffixOf "-USD".data t.data

/-- `_build_tickets(signals, target_dollars, prices)`: for each BUY signal,
look up dollars and price; skip when `px ≤ 0` or `dollars ≤ 0`; quantity is
`round(dollars/px, 3)` for `-USD` (crypto) symbols and `int(dollars/px)`
otherwise; skip when the resulting quantity is `≤ 0`. -/
def buildTickets (signals : List Signal)
    (target_dollars prices : List (String × ℚ)) : List Ticket :=
  signals.filterMap (fun s =>
    if s.action ≠ "BUY" then none
    else
      let t := s.ticker
      let dollars := getD0 target_dollars t
      let px := getD0 prices t
      if px ≤ 0 ∨ dollars ≤ 0 then none
      else
        let qty0 := dollars / px
        let qty : ℚ :=
          if endsWithUSD t then pyRound qty0 3 else (pyInt qty0 : ℚ)
        if qty ≤ 0 then none
        else some ⟨t, "BUY", qty, px, dollars, s.reason⟩)

/-! ## Options scorer (`filter_and_score_options`, identical in
`options_screener.py` and `dashboard_tab.py`) -/

/-- One row of a raw call/put table, with the columns the scorer reads. -/
structure OptionRow where
  contractSymbol : String
  strike : ℚ
  lastPrice : ℚ
  impliedVolatility : ℚ
  volume : ℚ
  openInterest : ℚ
  delta : ℚ
  inTheMoney : Bool
deriving DecidableEq, Repr

/-- The calls/puts tables stored under one expiration date. -/
structure Chain where
  calls : List OptionRow
  puts : List OptionRow
deriving DecidableEq, Repr

/-- One row of the scored output dataframe. -/
structure ScoredRow where
  contractSymbol : String
  strike : ℚ
  expiration : String
  lastPrice : ℚ
  IV : ℚ
  volume : ℚ
  openInterest : ℚ
  delta : ℚ
  score : ℚ
deriving DecidableEq, Repr

/-- The conjunctive filter applied to call rows before scoring. -/
def passesFilter (r : OptionRow) : Bool :=
  r.inTheMoney = false && decide (r.impliedVolatility < 1)
    && decide (r.volume > 10) && decide (r.openInterest > 50)

/-- The full-precision composite score of a surviving contract. -/
def rawScore (r : OptionRow) : ℚ :=
  (r.volume / r.openInterest) * 0.4
    + (1 - r.impliedVolatility) * 0.3
    + (1 - |0.5 - r.delta|) * 0.3

/-- The output row built for one surviving call contract: the raw columns
plus the composite score, which is stored already rounded to 4 decimal
places (`"score": round(score, 4)`). -/
def mkScored (exp : String) (r : OptionRow) : ScoredRow :=
  ⟨r.contractSymbol, r.strike, exp, r.lastPrice, r.impliedVolatility,
    r.volume, r.openInterest, r.delta, pyRound (rawScore r) 4⟩

/-- The rows accumulated into `scored_contracts`, one per surviving call
contract, in chain-iteration order. -/
def scoredRows (options_data : List (String × Chain)) : List ScoredRow :=
  options_data.flatMap (fun p =>
    (p.2.calls.filter passesFilter).map (mkScored p.1))

/-- `filter_and_score_options(options_data)`: filter, score, then
`df.sort_values("score", ascending=False)` — a descending sort on the
stored (rounded) `score` column, modelled by the stable `mergeSort`. -/
def filterAndScoreOptions (options_data : List (String × Chain)) :
    List ScoredRow :=
  (scoredRows options_data).mergeSort (fun a b => b.score ≤ a.score)

/-- The full-precision composite score recomputed from the
columns (the quantity C2 says the output should be ordered by). -/
def fullScore (r : ScoredRow) : ℚ :=
  (r.volume / r.openInterest) * 0.4
    + (1 - r.IV) * 0.3
    + (1 - |0.5 - r.delta|) * 0.3

/-! ## Helper lemmas -/

lemma sum_map_snd_scale (l : List (String × ℚ)) (c : ℚ) :
    ((l.map (fun p => (p.1, p.2 * c))).map Prod.snd).sum
      = ((l.map Prod.snd).sum) * c := by
  induction l with
  | nil => simp
  | cons a l ih =>
    simp only [List.map_cons, List.sum_cons, List.map_map] at ih ⊢
    rw [ih]
    ring

lemma positionTargets_eq_ite (pv cash ltp : ℚ)
    (weights prices curvals : List (String × ℚ)) (risk : Risk) :
    positionTargets pv cash ltp weights prices curvals risk
      = if ((clampedTargets pv cash ltp weights prices curvals risk).map
              Prod.snd).sum > max 0 (cash - risk.min_cash_reserve_usd)
            ∧ ((clampedTargets pv cash ltp weights prices curvals risk).map
              Prod.snd).sum > 0 then
          (clampedTargets pv cash ltp weights prices curvals risk).map
            (fun p => (p.1, p.2 * (max 0 (cash - risk.min_cash_reserve_usd)
              / ((clampedTargets pv cash ltp weights prices curvals risk).map
                  Prod.snd).sum)))
        else clampedTargets pv cash ltp weights prices curvals risk := rfl

lemma mem_clampedTargets_bounds {pv cash ltp : ℚ}
    {weights prices curvals : List (String × ℚ)} {risk : Risk} {t : String}
    {v : ℚ} (hmb : 0 ≤ risk.max_buy_usd)
    (hmem : (t, v) ∈ clampedTargets pv cash ltp weights prices curvals risk) :
    v ≤ risk.max_buy_usd
    ∧ v ≤ max 0 (risk.max_position_pct * max 1 pv - getD0 curvals t)
    ∧ (getD0 prices t ≤ 0 → v = 0) := by
  simp only [clampedTargets, List.mem_map, Prod.mk.injEq] at hmem
  obtain ⟨p, _, ht, hv⟩ := hmem
  subst hv
  subst ht
  by_cases hpx : getD0 prices p.1 ≤ 0
  · simp [hpx, hmb]
  · simp only [if_neg hpx]
    exact ⟨le_trans (min_le_left _ _) (min_le_right _ _), min_le_right _ _,
      fun hc => absurd hc hpx⟩

/-- Claim C7: a price series shorter than `window + 1` makes `_rsi` return
exactly the neutral sentinel 50.0, with no error raised. -/
theorem rsi_short_series_neutral (series : List ℚ) (window : ℤ)
    (h : (series.length : ℤ) < window + 1) : rsi series window = 50 := by
  unfold rsi
  rw [if_pos h]

theorem rsi_short_series_neutral_witness : rsi [1, 2, 3] 14 = 50 :=
  rsi_short_series_neutral [1, 2, 3] 14 (by norm_num)

/-- Claim C1: the sum of the allocation targets returned by the sizer never
exceeds `spare = max 0 (cash_on_hand - min_cash_reserve_usd)`; whenever the
sum of the clamped targets exceeds `spare` and is positive, every target is
uniformly scaled by `spare / sum`, after which the sum equals `spare`
exactly. -/
theorem positionTargets_reserve (pv cash ltp : ℚ)
    (weights prices curvals : List (String × ℚ)) (risk : Risk) :
    ((positionTargets pv cash ltp weights prices curvals risk).map
        Prod.snd).sum ≤ max 0 (cash - risk.min_cash_reserve_usd)
    ∧ (max 0 (cash - risk.min_cash_reserve_usd)
          < ((clampedTargets pv cash ltp weights prices curvals risk).map
              Prod.snd).sum
        ∧ 0 < ((clampedTargets pv cash ltp weights prices curvals risk).map
              Prod.snd).sum →
        positionTargets pv cash ltp weights prices curvals risk
          = (clampedTargets pv cash ltp weights prices curvals risk).map
              (fun p => (p.1, p.2 * (max 0 (cash - risk.min_cash_reserve_usd)
                / ((clampedTargets pv cash ltp weights prices curvals
                    risk).map Prod.snd).sum)))
        ∧ ((positionTargets pv cash ltp weights prices curvals risk).map
            Prod.snd).sum = max 0 (cash - risk.min_cash_reserve_usd)) := by
  set ct := clampedTargets pv cash ltp weights prices curvals risk with hct
  set total := (ct.map Prod.snd).sum with htotal
  set spare := max 0 (cash - risk.min_cash_reserve_usd) with hspare
  have hPT := positionTargets_eq_ite pv cash ltp weights prices curvals risk
  rw [← hct, ← htotal, ← hspare] at hPT
  have hspare0 : 0 ≤ spare := le_max_left _ _
  by_cases h : total > spare ∧ total > 0
  · have hsum : ((ct.map fun p => (p.1, p.2 * (spare / total))).map
        Prod.snd).sum = total * (spare / total) := sum_map_snd_scale ct _
    have htot0 : total ≠ 0 := ne_of_gt h.2
    have hcancel : total * (spare / total) = spare := by field_simp
    rw [hPT, if_pos h]
    exact ⟨le_of_eq (hsum.trans hcancel),
      fun _ => ⟨rfl, hsum.trans hcancel⟩⟩
  · rw [hPT, if_neg h]
    refine ⟨?_, fun hc => absurd hc h⟩
    by_cases h2 : total ≤ spare
    · exact h2
    · have h3 : total > spare := lt_of_not_le h2
      by_cases h4 : total > 0
      · exact absurd ⟨h3, h4⟩ h
      · exact le_trans (le_of_not_lt h4) hspare0

theorem positionTargets_reserve_witness :
    ((positionTargets 100000 6000 40 [("A", 1)] [("A", 10)] [("A", 0)]
        {}).map Prod.snd).sum = max 0 (6000 - ({} : Risk).min_cash_reserve_usd) :=
  ((positionTargets_reserve 100000 6000 40 [("A", 1)] [("A", 10)] [("A", 0)]
      {}).2 (by norm_num [clampedTargets, getD0, max_def, min_def])).2

/-- Claim C3: every returned allocation target is at most `max_buy_usd` and
at most the remaining room under the position cap
`max 0 (max_position_pct * max 1 portfolioValue - currentValue[t])`; a
ticker whose price is non-positive or missing gets target exactly 0. -/
theorem positionTargets_caps (pv cash ltp : ℚ)
    (weights prices curvals : List (String × ℚ)) (risk : Risk)
    (hmb : 0 ≤ risk.max_buy_usd) :
    ∀ t v, (t, v) ∈ positionTargets pv cash ltp weights prices curvals risk →
      v ≤ risk.max_buy_usd
      ∧ v ≤ max 0 (risk.max_position_pct * max 1 pv - getD0 curvals t)
      ∧ (getD0 prices t ≤ 0 → v = 0) := by
  intro t v hv
  rw [positionTargets_eq_ite] at hv
  set ct := clampedTargets pv cash ltp weights prices curvals risk with hct
  set total := (ct.map Prod.snd).sum with htotal
  set spare := max 0 (cash - risk.min_cash_reserve_usd) with hspare
  by_cases h : total > spare ∧ total > 0
  · rw [if_pos h] at hv
    simp only [List.mem_map, Prod.mk.injEq] at hv
    obtain ⟨⟨t0, v0⟩, hmem, ht0, hv0⟩ := hv
    subst hv0
    subst ht0
    obtain ⟨h1, h2, h3⟩ := mem_clampedTargets_bounds hmb hmem
    have hs0 : 0 ≤ spare / total := div_nonneg (le_max_left _ _) (le_of_lt h.2)
    have hs1 : spare / total ≤ 1 := (div_le_one h.2).mpr (le_of_lt h.1)
    by_cases hv0pos : 0 ≤ v0
    · have hle : v0 * (spare / total) ≤ v0 := mul_le_of_le_one_right hv0pos hs1
      exact ⟨le_trans hle h1, le_trans hle h2,
        fun hc => by rw [h3 hc, zero_mul]⟩
    · have hle : v0 * (spare / total) ≤ 0 :=
        mul_nonpos_of_nonpos_of_nonneg (le_of_not_le hv0pos) hs0
      exact ⟨le_trans hle hmb, le_trans hle (le_max_left _ _),
        fun hc => by rw [h3 hc, zero_mul]⟩
  · rw [if_neg h] at hv
    exact mem_clampedTargets_bounds hmb hv

theorem positionTargets_caps_witness :
    (1000 : ℚ) ≤ ({} : Risk).max_buy_usd
    ∧ (1000 : ℚ) ≤ max 0 (({} : Risk).max_position_pct * max 1 100000
        - getD0 [("A", 0)] "A")
    ∧ (getD0 [("A", 10)] "A" ≤ 0 → (1000 : ℚ) = 0) :=
  positionTargets_caps 100000 6000 40 [("A", 1)] [("A", 10)] [("A", 0)] {}
    (by norm_num) "A" 1000
    (by norm_num [positionTargets, clampedTargets, getD0, max_def, min_def])

lemma clampedTargets_nonneg {pv cash ltp : ℚ}
    {weights prices curvals : List (String × ℚ)} {risk : Risk}
    (hw : ∀ p ∈ weights, 0 ≤ p.2) (hmb : 0 ≤ risk.max_buy_usd)
    (hltp : 0 ≤ ltp) :
    ∀ p ∈ clampedTargets pv cash ltp weights prices curvals risk, 0 ≤ p.2 := by
  intro q hq
  simp only [clampedTargets, List.mem_map] at hq
  obtain ⟨p, hp, hq⟩ := hq
  subst hq
  dsimp only
  split_ifs with hpx
  · exact le_refl 0
  · refine le_min (le_min ?_ hmb) (le_max_left _ _)
    exact mul_nonneg
      (mul_nonneg (le_max_left _ _) (div_nonneg hltp (by norm_num)))
      (hw p hp)

lemma clampedTargets_keys (pv cash ltp : ℚ)
    (weights prices curvals : List (String × ℚ)) (risk : Risk) :
    (clampedTargets pv cash ltp weights prices curvals risk).map Prod.fst
      = weights.map Prod.fst := by
  simp only [clampedTargets, List.map_map]
  rfl

/-- Claim C8, counterexample: with all weights, prices, current values and
risk-limit fields non-negative but a negative `long_term_pct`, the sizer
returns a strictly negative allocation target. -/
theorem positionTargets_neg_counterexample :
    positionTargets 0 100 (-100) [("A", 1)] [("A", 1)] [("A", 0)] {}
        = [("A", -100)]
    ∧ (-100 : ℚ) < 0 := by
  constructor
  · norm_num [positionTargets, clampedTargets, getD0, max_def, min_def]
  · norm_num

/-- Claim C8, amended: for inputs with non-negative weights, prices,
current values, risk-limit fields AND a non-negative `long_term_pct`,
every returned target is `≥ 0`, and the returned mapping has exactly the
key list of the `weights` mapping (zero-weight and unpriceable tickers
included). -/
theorem positionTargets_nonneg (pv cash ltp : ℚ)
    (weights prices curvals : List (String × ℚ)) (risk : Risk)
    (hw : ∀ p ∈ weights, 0 ≤ p.2) (hp : ∀ p ∈ prices, 0 ≤ p.2)
    (hcv : ∀ p ∈ curvals, 0 ≤ p.2) (hmpp : 0 ≤ risk.max_position_pct)
    (hmb : 0 ≤ risk.max_buy_usd) (hmcr : 0 ≤ risk.min_cash_reserve_usd)
    (hltp : 0 ≤ ltp) :
    (∀ p ∈ positionTargets pv cash ltp weights prices curvals risk, 0 ≤ p.2)
    ∧ (positionTargets pv cash ltp weights prices curvals risk).map Prod.fst
        = weights.map Prod.fst := by
  rw [positionTargets_eq_ite]
  set ct := clampedTargets pv cash ltp weights prices curvals risk with hct
  set total := (ct.map Prod.snd).sum with htotal
  set spare := max 0 (cash - risk.min_cash_reserve_usd) with hspare
  have hctn : ∀ p ∈ ct, 0 ≤ p.2 := clampedTargets_nonneg hw hmb hltp
  have hctk : ct.map Prod.fst = weights.map Prod.fst :=
    clampedTargets_keys pv cash ltp weights prices curvals risk
  by_cases h : total > spare ∧ total > 0
  · rw [if_pos h]
    constructor
    · intro q hq
      simp only [List.mem_map] at hq
      obtain ⟨p, hp2, hq⟩ := hq
      subst hq
      exact mul_nonneg (hctn p hp2)
        (div_nonneg (le_max_left _ _) (le_of_lt h.2))
    · rw [List.map_map, ← hctk]
      rfl
  · rw [if_neg h]
    exact ⟨hctn, hctk⟩

theorem positionTargets_nonneg_witness :
    (∀ p ∈ positionTargets 100000 6000 40 [("A", 1)] [("A", 10)] [("A", 0)]
        {}, 0 ≤ p.2)
    ∧ (positionTargets 100000 6000 40 [("A", 1)] [("A", 10)] [("A", 0)]
        {}).map Prod.fst = [("A", (1 : ℚ))].map Prod.fst :=
  positionTargets_nonneg 100000 6000 40 [("A", 1)] [("A", 10)] [("A", 0)] {}
    (by norm_num) (by norm_num) (by norm_num) (by norm_num) (by norm_num)
    (by norm_num) (by norm_num)

lemma condFrag_eq_none {close : List ℚ} {c : Cond} :
    condFrag close c = none ↔ condSat close c = false := by
  simp [condFrag]

lemma condStep_eq (close : List ℚ) (acc : ℕ × List String) (c : Cond) :
    condStep close acc c =
      match condFrag close c with
      | some f => (acc.1 + 1, acc.2 ++ [f])
      | none => acc := by
  unfold condStep condFrag condSat
  by_cases h1 : c.ctype = "price_above_sma"
  · simp only [if_pos h1]
    cases hs : sma close c.window with
    | none => simp
    | some s =>
      by_cases h2 : s < close.getLast?.getD 0
      · simp [h2]
      · simp [h2]
  · by_cases h2 : c.ctype = "rsi_below"
    · simp only [if_neg h1, if_pos h2]
      by_cases h3 : rsi close c.window < c.threshold
      · simp [h3]
      · simp [h3]
    · simp [h1, h2]

lemma foldl_condStep (close : List ℚ) (rules : List Cond) :
    ∀ n acc, rules.foldl (condStep close) (n, acc)
      = (n + rules.countP (condSat close),
         acc ++ rules.filterMap (condFrag close)) := by
  induction rules with
  | nil => intro n acc; simp
  | cons c rs ih =>
    intro n acc
    rw [List.foldl_cons, condStep_eq]
    cases hf : condFrag close c with
    | none =>
      have hsat : condSat close c = false := condFrag_eq_none.mp hf
      simp [ih, List.countP_cons, List.filterMap_cons, hf, hsat]
    | some f =>
      have hsat : condSat close c = true := by
        by_cases h : condSat close c
        · exact h
        · rw [condFrag_eq_none.mpr (Bool.of_not_eq_true h)] at hf
          exact absurd hf (Option.noConfusion)
      rw [ih]
      simp only [List.countP_cons, List.filterMap_cons, hf, hsat, if_pos]
      refine Prod.ext ?_ ?_
      · simp only []
        omega
      · simp

/-- Claim C4: the evaluator returns the "no data" HOLD signal on an empty
or close-less price series; otherwise, with `score` the number of
satisfied buy-conditions, it returns BUY with confidence
`min 1 (score / 2)` and the comma-joined rationale fragments when
`score > 0`, and HOLD with confidence 0 and reason the joined fragments or
"neutral" when no fragment was produced. -/
theorem signalFor_spec (t : String) (rules : List Cond) (closes : List ℚ) :
    signalFor t rules none = ⟨t, "HOLD", 0, "no data"⟩
    ∧ signalFor t rules (some []) = ⟨t, "HOLD", 0, "no data"⟩
    ∧ (closes ≠ [] →
        signalFor t rules (some closes)
          = if 0 < rules.countP (condSat closes) then
              ⟨t, "BUY", min 1 ((rules.countP (condSat closes) : ℚ) / 2),
                String.intercalate ", " (rules.filterMap (condFrag closes))⟩
            else
              ⟨t, "HOLD", 0,
                if String.intercalate ", "
                    (rules.filterMap (condFrag closes)) = ""
                then "neutral"
                else String.intercalate ", "
                    (rules.filterMap (condFrag closes))⟩) := by
  refine ⟨rfl, rfl, fun hne => ?_⟩
  cases closes with
  | nil => exact absurd rfl hne
  | cons a l =>
    have heq : signalFor t rules (some (a :: l))
        = (if (rules.foldl (condStep (a :: l)) (0, [])).1 > 0 then
            (⟨t, "BUY",
              min 1 (((rules.foldl (condStep (a :: l)) (0, [])).1 : ℚ) / 2),
              String.intercalate ", "
                (rules.foldl (condStep (a :: l)) (0, [])).2⟩ : Signal)
          else
            ⟨t, "HOLD", 0,
              if String.intercalate ", "
                  (rules.foldl (condStep (a :: l)) (0, [])).2 = ""
              then "neutral"
              else String.intercalate ", "
                  (rules.foldl (condStep (a :: l)) (0, [])).2⟩) := rfl
    rw [heq, foldl_condStep]
    simp

theorem signalFor_spec_witness :
    signalFor "ES=F" [{ ctype := "price_above_sma", window := 3 }]
        (some [10, 10, 10, 10, 12])
      = ⟨"ES=F", "BUY", 1/2, "price>3SMA"⟩ := by
  have h := (signalFor_spec "ES=F"
      [{ ctype := "price_above_sma", window := 3 }] [10, 10, 10, 10, 12]).2.2
      (by simp)
  rw [h]
  norm_num [condSat, condFrag, sma, List.countP_cons, List.filterMap_cons,
    List.drop, List.sum_cons, List.sum_nil, Int.toNat_ofNat, min_def,
    Signal.mk.injEq, String.intercalate]
  rfl

/-- Claim C9: inserting a buy-condition whose `type` tag is neither
"price_above_sma" nor "rsi_below" anywhere in the rule list leaves the
produced Signal unchanged — unknown kinds are silently ignored. -/
theorem signalFor_unknown_cond (t : String) (rules1 rules2 : List Cond)
    (c : Cond) (df : Option (List ℚ))
    (h1 : c.ctype ≠ "price_above_sma") (h2 : c.ctype ≠ "rsi_below") :
    signalFor t (rules1 ++ c :: rules2) df
      = signalFor t (rules1 ++ rules2) df := by
  cases df with
  | none => rfl
  | some closes =>
    cases closes with
    | nil => rfl
    | cons a l =>
      have hstep : ∀ acc, condStep (a :: l) acc c = acc := by
        intro acc
        unfold condStep
        rw [if_neg h1, if_neg h2]
      have hfold : (rules1 ++ c :: rules2).foldl (condStep (a :: l)) (0, [])
          = (rules1 ++ rules2).foldl (condStep (a :: l)) (0, []) := by
        rw [List.foldl_append, List.foldl_append, List.foldl_cons, hstep]
      show (if ((rules1 ++ c :: rules2).foldl (condStep (a :: l))
              (0, [])).1 > 0 then _ else _)
          = (if ((rules1 ++ rules2).foldl (condStep (a :: l))
              (0, [])).1 > 0 then _ else _)
      rw [hfold]

theorem signalFor_unknown_cond_witness :
    signalFor "X" [{ ctype := "bogus" }] (some [10])
      = signalFor "X" [] (some [10]) :=
  signalFor_unknown_cond "X" [] [] { ctype := "bogus" } (some [10])
    (by decide) (by decide)

/-- Claim C6: the ticket builder never emits a ticket with quantity `≤ 0`
or dollar amount `≤ 0`; BUY signals with non-positive price or target
dollars, or whose rounded/truncated quantity is `≤ 0`, produce nothing. -/
theorem buildTickets_nondegenerate (signals : List Signal)
    (target_dollars prices : List (String × ℚ)) :
    ∀ tk ∈ buildTickets signals target_dollars prices,
      0 < tk.qty ∧ 0 < tk.dollars := by
  intro tk htk
  simp only [buildTickets, List.mem_filterMap] at htk
  obtain ⟨s, _, h⟩ := htk
  by_cases h1 : s.action ≠ "BUY"
  · rw [if_pos h1] at h
    exact absurd h (by simp)
  · rw [if_neg h1] at h
    split_ifs at h with h2 h3 h4 h5
    · obtain rfl := Option.some.inj h
      push_neg at h2 h4
      exact ⟨h4, h2.2⟩
    · obtain rfl := Option.some.inj h
      push_neg at h2 h5
      exact ⟨h5, h2.2⟩

theorem buildTickets_nondegenerate_witness :
    0 < (Ticket.mk "AAPL" "BUY" 4 250 1000 "up").qty
    ∧ 0 < (Ticket.mk "AAPL" "BUY" 4 250 1000 "up").dollars :=
  buildTickets_nondegenerate [⟨"AAPL", "BUY", 1, "up"⟩] [("AAPL", 1000)]
    [("AAPL", 250)] ⟨"AAPL", "BUY", 4, 250, 1000, "up"⟩
    (by norm_num [buildTickets, getD0, pyInt,
      show endsWithUSD "AAPL" = false from rfl])

/-- Claim C10: for every emitted ticket on a whole-unit ticker (symbol not
ending in "-USD"), the quantity is `int(dollars / price)` (truncation
toward zero), hence `quantity * price ≤ dollars`. -/
theorem buildTickets_equity_whole_units (signals : List Signal)
    (target_dollars prices : List (String × ℚ)) :
    ∀ tk ∈ buildTickets signals target_dollars prices,
      endsWithUSD tk.ticker = false →
      tk.qty = (pyInt (tk.dollars / tk.est_price) : ℚ)
      ∧ tk.qty * tk.est_price ≤ tk.dollars := by
  intro tk htk hus
  simp only [buildTickets, List.mem_filterMap] at htk
  obtain ⟨s, _, h⟩ := htk
  by_cases h1 : s.action ≠ "BUY"
  · rw [if_pos h1] at h
    exact absurd h (by simp)
  · rw [if_neg h1] at h
    split_ifs at h with h2 h3 h4 h5
    · obtain rfl := Option.some.inj h
      replace hus : endsWithUSD s.ticker = false := hus
      rw [h3] at hus
      exact absurd hus (by simp)
    · obtain rfl := Option.some.inj h
      push_neg at h2
      have hq0 : (0 : ℚ) ≤ getD0 target_dollars s.ticker
          / getD0 prices s.ticker :=
        le_of_lt (div_pos h2.2 h2.1)
      have hfl : pyInt (getD0 target_dollars s.ticker
          / getD0 prices s.ticker)
          = ⌊getD0 target_dollars s.ticker / getD0 prices s.ticker⌋ := by
        rw [pyInt, if_neg (not_lt.mpr hq0)]
      refine ⟨rfl, ?_⟩
      show (pyInt (getD0 target_dollars s.ticker
          / getD0 prices s.ticker) : ℚ) * getD0 prices s.ticker
        ≤ getD0 target_dollars s.ticker
      rw [hfl]
      exact (le_div_iff₀ h2.1).mp (Int.floor_le _)

theorem buildTickets_equity_whole_units_witness :
    (Ticket.mk "MSFT" "BUY" 3 300 1000 "up").qty
      = (pyInt ((Ticket.mk "MSFT" "BUY" 3 300 1000 "up").dollars
          / (Ticket.mk "MSFT" "BUY" 3 300 1000 "up").est_price) : ℚ)
    ∧ (Ticket.mk "MSFT" "BUY" 3 300 1000 "up").qty
        * (Ticket.mk "MSFT" "BUY" 3 300 1000 "up").est_price
      ≤ (Ticket.mk "MSFT" "BUY" 3 300 1000 "up").dollars :=
  buildTickets_equity_whole_units [⟨"MSFT", "BUY", 1, "up"⟩]
    [("MSFT", 1000)] [("MSFT", 300)] ⟨"MSFT", "BUY", 3, 300, 1000, "up"⟩
    (by norm_num [buildTickets, getD0, pyInt,
      show endsWithUSD "MSFT" = false from rfl])
    (by rfl)

/-- Claim C5: every row of the scorer output satisfies the filter —
implied volatility `< 1`, volume `> 10`, open interest `> 50` — and comes
from a call contract of the input chain that is not in the money; failing
contracts are excluded entirely and never scored. -/
theorem scorer_filter_exclusivity (data : List (String × Chain)) :
    ∀ r ∈ filterAndScoreOptions data,
      r.IV < 1 ∧ 10 < r.volume ∧ 50 < r.openInterest
      ∧ ∃ exp ch c, (exp, ch) ∈ data ∧ c ∈ ch.calls
          ∧ c.inTheMoney = false ∧ r = mkScored exp c := by
  intro r hr
  rw [filterAndScoreOptions, List.mem_mergeSort] at hr
  simp only [scoredRows, List.mem_flatMap, List.mem_map, List.mem_filter]
    at hr
  obtain ⟨⟨exp, ch⟩, hmem, c, ⟨hc, hpass⟩, hr⟩ := hr
  subst hr
  simp only [passesFilter, Bool.and_eq_true, decide_eq_true_eq,
    decide_eq_false_iff_not] at hpass
  obtain ⟨⟨⟨hitm, hiv⟩, hvol⟩, hoi⟩ := hpass
  exact ⟨hiv, hvol, hoi,
    exp, ch, c, hmem, hc, by simpa using hitm, rfl⟩

theorem scorer_filter_exclusivity_witness :
    (mkScored "e" ⟨"c1", 100, 5, 0.3, 100, 100, 0.5, false⟩).IV < 1
    ∧ 10 < (mkScored "e" ⟨"c1", 100, 5, 0.3, 100, 100, 0.5, false⟩).volume
    ∧ 50 < (mkScored "e"
        ⟨"c1", 100, 5, 0.3, 100, 100, 0.5, false⟩).openInterest
    ∧ ∃ exp ch c,
        (exp, ch) ∈ [("e", Chain.mk [⟨"c1", 100, 5, 0.3, 100, 100, 0.5,
            false⟩] [])]
        ∧ c ∈ ch.calls ∧ c.inTheMoney = false
        ∧ mkScored "e" ⟨"c1", 100, 5, 0.3, 100, 100, 0.5, false⟩
            = mkScored exp c :=
  scorer_filter_exclusivity
    [("e", Chain.mk [⟨"c1", 100, 5, 0.3, 100, 100, 0.5, false⟩] [])]
    (mkScored "e" ⟨"c1", 100, 5, 0.3, 100, 100, 0.5, false⟩)
    (by
      rw [filterAndScoreOptions, List.mem_mergeSort]
      norm_num [scoredRows, passesFilter])

/-- Claim C2, amended: the scorer output is sorted in non-increasing
order of the stored `score` column — which is the composite score already
rounded to 4 decimal places; the rounded value, not the full-precision
one, is what the sort key uses. -/
theorem scorer_sorted_by_rounded_score (data : List (String × Chain)) :
    List.Sorted (fun a b : ScoredRow => b.score ≤ a.score)
      (filterAndScoreOptions data) := by
  have h := @List.sorted_mergeSort ScoredRow
    (fun a b : ScoredRow => decide (b.score ≤ a.score))
    (fun a b c hab hbc => by
      simp only [decide_eq_true_eq] at hab hbc ⊢
      exact le_trans hbc hab)
    (fun a b => by
      simp only [Bool.or_eq_true, decide_eq_true_eq]
      exact le_total b.score a.score)
    (scoredRows data)
  exact h.imp (fun hab => of_decide_eq_true hab)

/-- Claim C2, counterexample: two surviving contracts whose full-precision
scores are 0.49 and 0.49002 both round to 0.49; the code sorts on the
rounded (stored) score, so the stable sort keeps the input order and the
output is NOT non-increasing in the full-precision composite score. -/
theorem scorer_not_sorted_by_full_score :
    ¬ List.Sorted (fun a b : ScoredRow => fullScore b ≤ fullScore a)
      (filterAndScoreOptions
        [("e", Chain.mk
          [⟨"c1", 1, 1, 0.5, 100, 1000, 0.5, false⟩,
           ⟨"c2", 1, 1, 0.5, 2001, 20000, 0.5, false⟩] [])]) := by
  have h1 : scoredRows
      [("e", Chain.mk
        [⟨"c1", 1, 1, 0.5, 100, 1000, 0.5, false⟩,
         ⟨"c2", 1, 1, 0.5, 2001, 20000, 0.5, false⟩] [])]
      = [⟨"c1", 1, "e", 1, 0.5, 100, 1000, 0.5, 49/100⟩,
         ⟨"c2", 1, "e", 1, 0.5, 2001, 20000, 0.5, 49/100⟩] := by
    norm_num [scoredRows, mkScored, passesFilter, rawScore, pyRound,
      pyRoundInt]
  have h2 : filterAndScoreOptions
      [("e", Chain.mk
        [⟨"c1", 1, 1, 0.5, 100, 1000, 0.5, false⟩,
         ⟨"c2", 1, 1, 0.5, 2001, 20000, 0.5, false⟩] [])]
      = [⟨"c1", 1, "e", 1, 0.5, 100, 1000, 0.5, 49/100⟩,
         ⟨"c2", 1, "e", 1, 0.5, 2001, 20000, 0.5, 49/100⟩] := by
    rw [filterAndScoreOptions, h1]
    exact List.mergeSort_of_sorted (by norm_num [List.pairwise_cons])
  rw [h2]
  intro hs
  have hle := (List.pairwise_cons.mp hs).1
    ⟨"c2", 1, "e", 1, 0.5, 2001, 20000, 0.5, 49/100⟩ (by simp)
  norm_num [fullScore] at hle

end TradingBot
